import Mathlib

/-!
Verification of the ClairKeys MusicXML-to-animation converter
(`omr-service/omr/converter.py`, class `MusicXMLToClairKeysConverter`).

The converter walks a parsed XML tree; we embed XML elements as a rose
tree `Elem` with a tag, attributes, optional text and a child list.
ElementTree's `find('name')` / `findall('name')` search direct children,
while `find('.//name')` / `findall('.//name')` search all descendants in
document (preorder) order; both are modelled below.

Numeric conventions of the embedding:
* Python `float` arithmetic on the times and durations appearing here is
  modelled by exact rationals (the program only divides parsed decimals
  by 4 and adds them).
* `int(s)` is modelled by `pyInt` (sign, ASCII digit runs with Python's
  underscore rule) and `float(s)` by `pyFloatVal` over the values a Python
  float can take: a finite rational (decimal literal, optional exponent,
  underscores), a signed infinity, or NaN; a text neither accepts
  corresponds to the `ValueError` / `TypeError` paths of the source.
* The wall-clock value `datetime.utcnow().isoformat()` used for the
  `generated_at` field is made an explicit parameter `now` of `convert`.
* Exceptions escaping a function are modelled with `Except`; exceptions
  caught inside a function (the `try/except` in `_parse_note_element`,
  the `ValueError` handler in `_extract_tempo`) stay local, as in the
  source, while `int()` applied to an infinite float raises an
  `OverflowError` that `except ValueError` does not catch and which
  therefore escapes `_extract_tempo` and `convert`.
-/

/- An XML element: tag, attributes, optional text, children.  The child
sequence is a mutually inductive list so that the descendant traversal
below is structurally recursive (hence computable by plain reduction). -/
mutual

/-- An XML element: tag, attributes, optional text, children. -/
inductive Elem : Type where
  | mk (tag : String) (attrs : List (String × String)) (text : Option String)
       (children : ElemList) : Elem

inductive ElemList : Type where
  | nil : ElemList
  | cons (e : Elem) (rest : ElemList) : ElemList

end

def ElemList.ofList : List Elem → ElemList
  | [] => .nil
  | e :: rest => .cons e (ElemList.ofList rest)

def ElemList.toList : ElemList → List Elem
  | .nil => []
  | .cons e rest => e :: rest.toList

def Elem.tag : Elem → String
  | .mk t _ _ _ => t

def Elem.attrs : Elem → List (String × String)
  | .mk _ a _ _ => a

def Elem.text : Elem → Option String
  | .mk _ _ x _ => x

def Elem.children : Elem → ElemList
  | .mk _ _ _ cs => cs

/-- The direct children of an element, as a list. -/
def Elem.childList (e : Elem) : List Elem :=
  e.children.toList

mutual

/-- All strict descendants of an element, in document (preorder) order. -/
def Elem.descendants : Elem → List Elem
  | .mk _ _ _ cs => cs.descAll

/-- All elements of the list together with their descendants, in document
(preorder) order. -/
def ElemList.descAll : ElemList → List Elem
  | .nil => []
  | .cons e rest => e :: (e.descendants ++ rest.descAll)

end

/-- ElementTree `root.find('.//tag')`: first descendant with the tag, in
document order. -/
def findDesc (tag : String) (root : Elem) : Option Elem :=
  root.descendants.find? (fun e => e.tag == tag)

/-- ElementTree `root.findall('.//tag')`: all descendants with the tag, in
document order. -/
def findAllDesc (tag : String) (root : Elem) : List Elem :=
  root.descendants.filter (fun e => e.tag == tag)

/-- ElementTree `e.find('tag')`: first direct child with the tag. -/
def findChild (tag : String) (e : Elem) : Option Elem :=
  e.childList.find? (fun c => c.tag == tag)

/-- ElementTree `e.findall('tag')`: all direct children with the tag. -/
def findAllChildren (tag : String) (e : Elem) : List Elem :=
  e.childList.filter (fun c => c.tag == tag)

/-- Attribute lookup, `e.get(key)`. -/
def attrLookup (e : Elem) (key : String) : Option String :=
  (e.attrs.find? (fun p => p.1 == key)).map (fun p => p.2)

/-- Python `str.strip()` on a character list. -/
def charStrip (l : List Char) : List Char :=
  ((l.dropWhile Char.isWhitespace).reverse.dropWhile Char.isWhitespace).reverse

/-- Python `str.strip()`. -/
def pyStrip (s : String) : String :=
  String.mk (charStrip s.toList)

/-- Numeric value of a digit string (what Python `int` returns on an
all-digits string). -/
def digitsVal (l : List Char) : Nat :=
  l.foldl (fun a c => a * 10 + (c.toNat - 48)) 0

/-- Python `str.isdigit()` (restricted to ASCII digits). -/
def pyIsDigit (s : String) : Bool :=
  !s.toList.isEmpty && s.toList.all Char.isDigit

/-- Drop the underscore separators of a numeric literal. -/
def stripUnd (l : List Char) : List Char :=
  l.filter (fun c => c != '_')

/-- Continuation of a digit run: every underscore sits between two digits
(no doubled, leading or trailing underscore). -/
def numTail : List Char → Bool
  | [] => true
  | '_' :: c :: rest => c.isDigit && numTail rest
  | c :: rest => c.isDigit && numTail rest

/-- A nonempty digit run with single underscores allowed between digits,
as Python's numeric literals accept (`10`, `1_000`; not `1_`, `1__0`).
Digits are modelled as ASCII (Python additionally accepts unicode decimal
digits). -/
def digitRun (l : List Char) : Bool :=
  match l with
  | [] => false
  | c :: rest => c.isDigit && numTail rest

/-- Python `int(s)` on a string: strip whitespace, optional sign, then a
digit run (underscores between digits allowed, `int("1_0") = 10`);
`none` models the `ValueError` on anything else. -/
def pyInt (s : String) : Option Int :=
  match charStrip s.toList with
  | '-' :: rest => if digitRun rest then some (-(digitsVal (stripUnd rest) : Int)) else none
  | '+' :: rest => if digitRun rest then some ((digitsVal (stripUnd rest) : Int)) else none
  | t => if digitRun t then some ((digitsVal (stripUnd t) : Int)) else none

/-- The value of a Python `float`: a finite rational, a signed infinity, or
NaN. -/
inductive PyFloat : Type where
  | finite (q : ℚ) : PyFloat
  | inf : PyFloat
  | negInf : PyFloat
  | nan : PyFloat
deriving Repr, DecidableEq

/-- The mantissa of a float literal: `digits[.digits]` with at least one
digit, underscores inside the digit runs (`10.5`, `1_0.2_5`, `.5`, `5.`). -/
def pyMantissa (mant : List Char) : Option ℚ :=
  let ip := mant.takeWhile (fun c => c ≠ '.')
  let frest := mant.drop ip.length
  match frest with
  | [] => if digitRun ip then some ((digitsVal (stripUnd ip) : ℚ)) else none
  | _ :: fp =>
      if (digitRun ip || ip.isEmpty) && (digitRun fp || fp.isEmpty) &&
          !(ip.isEmpty && fp.isEmpty) then
        some ((digitsVal (stripUnd ip) : ℚ) +
          (digitsVal (stripUnd fp) : ℚ) / ((10 : ℚ) ^ (stripUnd fp).length))
      else none

/-- The exponent after an `e`/`E` marker: optional sign, then a digit run. -/
def pyExp : List Char → Option Int
  | '-' :: d => if digitRun d then some (-(digitsVal (stripUnd d) : Int)) else none
  | '+' :: d => if digitRun d then some ((digitsVal (stripUnd d) : Int)) else none
  | d => if digitRun d then some ((digitsVal (stripUnd d) : Int)) else none

/-- A finite float literal: mantissa with an optional `e`/`E` exponent
(`1e3` is 1000, `2E-1` is 1/5). -/
def pyFloatFinite (t : List Char) : Option ℚ :=
  let mant := t.takeWhile (fun c => !(c = 'e' || c = 'E'))
  let rest := t.drop mant.length
  match pyMantissa mant with
  | none => none
  | some m =>
    match rest with
    | [] => some m
    | _ :: etail =>
      match pyExp etail with
      | none => none
      | some ex => some (m * (10 : ℚ) ^ ex)

/-- Case-insensitive comparison with a lowercase keyword. -/
def lowerEq (l : List Char) (kw : List Char) : Bool :=
  l.map Char.toLower == kw

/-- An unsigned Python float text: `inf`/`infinity`/`nan` in any case, or
a finite literal. -/
def pyFloatUnsigned (t : List Char) : Option PyFloat :=
  if lowerEq t ['i', 'n', 'f'] || lowerEq t ['i', 'n', 'f', 'i', 'n', 'i', 't', 'y'] then
    some PyFloat.inf
  else if lowerEq t ['n', 'a', 'n'] then
    some PyFloat.nan
  else
    (pyFloatFinite t).map PyFloat.finite

/-- Negation of a Python float value (`-nan` is NaN). -/
def pyFloatNeg : PyFloat → PyFloat
  | .finite q => .finite (-q)
  | .inf => .negInf
  | .negInf => .inf
  | .nan => .nan

/-- Python `float(s)`: strip whitespace, optional sign, then an infinity
or NaN spelling or a finite literal; `none` models the `ValueError` on
anything else. -/
def pyFloatVal (s : String) : Option PyFloat :=
  match charStrip s.toList with
  | '-' :: rest => (pyFloatUnsigned rest).map pyFloatNeg
  | '+' :: rest => pyFloatUnsigned rest
  | t => pyFloatUnsigned t

/-- The finite value of Python `float(s)`, when there is one.  This is the
reading used where the program only feeds the value into arithmetic that
this embedding keeps rational. -/
def pyFloat (s : String) : Option ℚ :=
  match pyFloatVal s with
  | some (.finite q) => some q
  | _ => none

/-- Python `int(x)` on a number: truncation toward zero. -/
def pyTrunc (q : ℚ) : Int :=
  if q < 0 then ⌈q⌉ else ⌊q⌋

/-- Python `f"{x}"` on an optional text (`None` prints as "None"). -/
def pyStr : Option String → String
  | some s => s
  | none => "None"

/-- `{"title": ..., "composer": ...}` of the output. -/
structure Metadata where
  title : String
  composer : String
deriving Repr, DecidableEq

/-- One emitted note event (a dict in the source). -/
structure NoteEvent where
  midi : Int
  start : ℚ
  duration : ℚ
  hand : String
  finger : Option Int
deriving Repr, DecidableEq

/-- The animation-data dictionary returned by `convert`. -/
structure AnimationData where
  metadata : Metadata
  notes : List NoteEvent
  duration : ℚ
  tempo : Int
  keySignature : String
  timeSignature : String
  generated_at : String
deriving Repr, DecidableEq

/-- The `base_notes` table of `_note_to_midi`. -/
def baseNote : String → Option Int
  | "C" => some 60
  | "D" => some 62
  | "E" => some 64
  | "F" => some 65
  | "G" => some 67
  | "A" => some 69
  | "B" => some 71
  | _ => none

/-- `_note_to_midi(step, octave, alter)`.  The step is optional because the
source passes `pitch.find('step').text`, which may be `None`; the `step not
in base_notes` test then fails and `None` is returned. -/
def _note_to_midi (step : Option String) (octave : Int) (alter : Int) : Option Int :=
  match step with
  | none => none
  | some s =>
    match baseNote s with
    | none => none
    | some b =>
      -- midi_num = base_notes[step] + (octave - 4) * 12 + alter
      if 21 ≤ b + (octave - 4) * 12 + alter ∧ b + (octave - 4) * 12 + alter ≤ 108
      then some (b + (octave - 4) * 12 + alter) else none

/-- The `<alter>` handling of `_parse_note_element`: absent element means 0;
a present element whose text does not parse raises inside the `try`, which
the handler turns into dropping the note (`none` here). -/
def alterValue (pitch_elem : Elem) : Option Int :=
  match findChild "alter" pitch_elem with
  | none => some 0
  | some a => a.text.bind pyInt

/-- The `<duration>` handling of `_parse_note_element`: absent element
defaults to 0.5 s; a present element parses as `float(text) / 4.0`, and an
unparsable text raises inside the `try` (note dropped, `none` here). -/
def durationValue (note_elem : Elem) : Option ℚ :=
  match findChild "duration" note_elem with
  | none => some (1 / 2)
  | some d => (d.text.bind pyFloat).map (fun q => q / 4)

/-- The fingering handling of `_parse_note_element`
(`note_elem.find('.//fingering')`): outer `none` models the
`AttributeError` raised by `.isdigit()` on a `None` text (note dropped);
`some none` is an absent / non-digit / out-of-range fingering (note kept,
no finger); the digit value is range-checked to [1,5]. -/
def fingerValue (note_elem : Elem) : Option (Option Int) :=
  match findDesc "fingering" note_elem with
  | none => some none
  | some f =>
    match f.text with
    | none => none
    | some s =>
      if pyIsDigit s then
        -- finger = int(text); normalised to None when outside [1,5]
        if (digitsVal s.toList : Int) < 1 ∨ (digitsVal s.toList : Int) > 5
        then some none else some (some (digitsVal s.toList : Int))
      else some none

/-- `_parse_note_element(note_elem, current_time, hand)`.  Every exception
raised inside the source's `try` block returns `None`, here `none`.  A rest
returns `None` unconditionally: the source computes the rest's duration
into a local variable and discards it (dead store), so a rest — with or
without a (possibly malformed) duration — produces no event. -/
def _parse_note_element (note_elem : Elem) (current_time : ℚ) (hand : String) :
    Option NoteEvent :=
  if (findChild "rest" note_elem).isSome then
    none
  else
    match findChild "pitch" note_elem with
    | none => none
    | some pitch_elem =>
      match findChild "step" pitch_elem with
      | none => none
      | some step_elem =>
        match findChild "octave" pitch_elem with
        | none => none
        | some octave_elem =>
          match octave_elem.text.bind pyInt with
          | none => none
          | some octave =>
            match alterValue pitch_elem with
            | none => none
            | some alter_value =>
              match _note_to_midi step_elem.text octave alter_value with
              | none => none
              | some midi_num =>
                match durationValue note_elem with
                | none => none
                | some duration =>
                  match fingerValue note_elem with
                  | none => none
                  | some finger =>
                    some { midi := midi_num, start := current_time,
                           duration := duration, hand := hand, finger := finger }

/-- The body of the note loop in `_extract_notes`: parse the element at the
current cursor; on success append the event and move the cursor to
`start + duration`, otherwise leave the state unchanged. -/
def noteStep (hand : String) (st : List NoteEvent × ℚ) (note_elem : Elem) :
    List NoteEvent × ℚ :=
  match _parse_note_element note_elem st.2 hand with
  | some note_data => (st.1 ++ [note_data], note_data.start + note_data.duration)
  | none => st

/-- The measure loop body of `_extract_notes`: `measure_time` starts at the
part cursor and the part cursor is set to the final `measure_time`, so the
cursor threads through unchanged. -/
def measureStep (hand : String) (st : List NoteEvent × ℚ) (measure : Elem) :
    List NoteEvent × ℚ :=
  (findAllChildren "note" measure).foldl (noteStep hand) st

/-- All events of one part, cursor initialised to 0 (`part_time = 0.0`). -/
def processPart (part : Elem) (hand : String) : List NoteEvent :=
  ((findAllChildren "measure" part).foldl (measureStep hand) ([], 0)).1

/-- `hand = "R" if part_idx == 0 else "L"`. -/
def handFor (part_idx : Nat) : String :=
  if part_idx = 0 then "R" else "L"

/-- The concatenated events of all parts, in part order, before sorting. -/
def collectNotes (root : Elem) : List NoteEvent :=
  ((findAllDesc "part" root).enum.map (fun ip => processPart ip.2 (handFor ip.1))).flatten

/-- Insert an event after every already-placed event whose start is ≤ its
own: the insertion step of a stable sort on `start`. -/
def insertByStart (n : NoteEvent) : List NoteEvent → List NoteEvent
  | [] => [n]
  | m :: ms => if m.start ≤ n.start then m :: insertByStart n ms else n :: m :: ms

/-- `notes.sort(key=lambda n: n['start'])`: Python's sort is stable, and a
stable sort on a fixed key is unique, so this stable insertion sort has the
same value. -/
def sortByStart (l : List NoteEvent) : List NoteEvent :=
  l.foldl (fun acc n => insertByStart n acc) []

/-- `_extract_notes(root)`. -/
def _extract_notes (root : Elem) : List NoteEvent :=
  sortByStart (collectNotes root)

/-- `title if title else default` — Python truthiness on the optional
caller hint (an empty-string hint is falsy). -/
def hintOr (hint : Option String) (dflt : String) : String :=
  match hint with
  | some h => if h ≠ "" then h else dflt
  | none => dflt

/-- `root.find('.//work-title')` followed by `.text`. -/
def declaredWorkTitle (root : Elem) : Option String :=
  (findDesc "work-title" root).bind Elem.text

/-- `root.find('.//creator[@type="composer"]')` followed by `.text`. -/
def declaredComposer (root : Elem) : Option String :=
  (root.descendants.find?
    (fun e => e.tag == "creator" && attrLookup e "type" == some "composer")).bind Elem.text

/-- `_extract_metadata(root, title, composer)`. -/
def _extract_metadata (root : Elem) (title : Option String) (composer : Option String) :
    Metadata :=
  let t :=
    match declaredWorkTitle root with
    | some s => if s ≠ "" then pyStrip s else hintOr title "Untitled"
    | none => hintOr title "Untitled"
  let c :=
    match declaredComposer root with
    | some s => if s ≠ "" then pyStrip s else hintOr composer "Unknown"
    | none => hintOr composer "Unknown"
  { title := t, composer := c }

/-- `_calculate_duration(notes)`: `max(start + duration)` over the notes,
0.0 for an empty list. -/
def _calculate_duration (notes : List NoteEvent) : ℚ :=
  match (notes.map (fun n => n.start + n.duration)).max? with
  | some m => m
  | none => 0

/-- `_extract_tempo(root)`: first `<per-minute>` anywhere, truthy text,
then `int(float(text))` under `except ValueError`.  A finite value
truncates toward zero; an unparsable text (`float` raises `ValueError`) or
a NaN (`int` raises `ValueError`) is caught and falls through to 120; but
an infinite value makes `int` raise an `OverflowError`, which the
`except ValueError` handler does NOT catch — it escapes the function,
modelled by `Except.error`. -/
def _extract_tempo (root : Elem) : Except String Int :=
  match findDesc "per-minute" root with
  | some tempo_elem =>
    match tempo_elem.text with
    | some s =>
      if s ≠ "" then
        match pyFloatVal s with
        | some (.finite q) => Except.ok (pyTrunc q)
        | some .inf => Except.error "OverflowError"
        | some .negInf => Except.error "OverflowError"
        | some .nan => Except.ok 120
        | none => Except.ok 120
      else Except.ok 120
    | none => Except.ok 120
  | none => Except.ok 120

/-- The `keys` table of `_extract_key_signature`. -/
def keyNames : List String := ["C", "G", "D", "A", "E", "B", "F#", "C#"]

/-- `_extract_key_signature(root)`.  `int(fifths_elem.text)` is NOT inside
any `try`: a missing text (`TypeError`) or non-integer text (`ValueError`)
raises out of the function, modelled by `Except.error`. -/
def _extract_key_signature (root : Elem) : Except String String :=
  match findDesc "key" root with
  | some key_elem =>
    match findChild "fifths" key_elem with
    | some fifths_elem =>
      match fifths_elem.text with
      | some s =>
        match pyInt s with
        | some fifths =>
            Except.ok (if 0 ≤ fifths ∧ fifths < 8 then keyNames.getD fifths.toNat "C" else "C")
        | none => Except.error "ValueError"
      | none => Except.error "TypeError"
    | none => Except.ok "C"
  | none => Except.ok "C"

/-- `_extract_time_signature(root)`. -/
def _extract_time_signature (root : Elem) : String :=
  match findDesc "time" root with
  | some time_elem =>
    match findChild "beats" time_elem, findChild "beat-type" time_elem with
    | some beats, some beat_type => pyStr beats.text ++ "/" ++ pyStr beat_type.text
    | some _, none => "4/4"
    | none, some _ => "4/4"
    | none, none => "4/4"
  | none => "4/4"

/-- `convert(musicxml_path, title, composer)`, after the document has been
parsed into `root`.  `now` is the ambient `datetime.utcnow().isoformat()`
value.  The `try/except` in `convert` logs and re-raises, so any exception
escaping a helper (`_extract_tempo` on infinite per-minute text,
`_extract_key_signature` on bad fifths text) escapes `convert` unchanged.
The dict literal in the source evaluates its values in order, so
`_extract_tempo` runs before `_extract_key_signature`; when both would
raise, the tempo error is the one that escapes. -/
def convert (root : Elem) (title : Option String) (composer : Option String)
    (now : String) : Except String AnimationData :=
  match _extract_tempo root with
  | Except.error e => Except.error e
  | Except.ok tempo =>
    match _extract_key_signature root with
    | Except.error e => Except.error e
    | Except.ok ks =>
        let metadata := _extract_metadata root title composer
        let notes := _extract_notes root
        Except.ok {
          metadata := metadata
          notes := notes
          duration := _calculate_duration notes
          tempo := tempo
          keySignature := ks
          timeSignature := _extract_time_signature root
          generated_at := now }

/-- Forget the wall-clock field of a result. -/
def eraseTimestamp (ad : AnimationData) : AnimationData :=
  { ad with generated_at := "" }

/-- A pitched note element carrying the fields `_parse_note_element` reads:
no rest child, a pitch child whose step text is `s`, whose octave text
parses to `o`, and whose alter resolves to `a`. -/
def pitchFields (ne : Elem) (s : String) (o a : Int) : Prop :=
  findChild "rest" ne = none ∧
  ∃ p, findChild "pitch" ne = some p ∧
    (∃ se, findChild "step" p = some se ∧ se.text = some s) ∧
    (∃ oe, findChild "octave" p = some oe ∧ oe.text.bind pyInt = some o) ∧
    alterValue p = some a

/-- Successor event starts where its predecessor ends. -/
def chainRel (a b : NoteEvent) : Prop := b.start = a.start + a.duration

/-- Invariant of the `(emitted events, cursor)` state threaded through the
note loop: events chain start-to-end, the first one starts at 0, and the
cursor sits at the end of the last emitted event (at 0 if none). -/
def cursorOK (st : List NoteEvent × ℚ) : Prop :=
  List.Chain' chainRel st.1 ∧
  (∀ n, st.1.head? = some n → n.start = 0) ∧
  (match st.1.getLast? with
   | some m => st.2 = m.start + m.duration
   | none => st.2 = 0)

/-- Build an element from a plain child list. -/
def elemNode (tag : String) (attrs : List (String × String)) (text : Option String)
    (children : List Elem) : Elem :=
  .mk tag attrs text (.ofList children)

def mkTextElem (tag : String) (txt : String) : Elem := elemNode tag [] (some txt) []

def mkPitch (step : String) (octave : String) : Elem :=
  elemNode "pitch" [] none [mkTextElem "step" step, mkTextElem "octave" octave]

def mkNote (step : String) (octave : String) (dur : String) : Elem :=
  elemNode "note" [] none [mkPitch step octave, mkTextElem "duration" dur]

/-- One measure with two quarter notes (duration units `1`). -/
def partElem : Elem :=
  elemNode "part" [] none
    [elemNode "measure" [] none [mkNote "C" "4" "1", mkNote "C" "4" "1"]]

/-- One part, one measure, two quarter notes (duration units `1`). -/
def twoNoteDoc : Elem :=
  elemNode "score-partwise" [] none [partElem]

/-- First event emitted for `twoNoteDoc`. -/
def evA : NoteEvent :=
  { midi := 60, start := 0, duration := 1 / 4, hand := "R", finger := none }

/-- Second event emitted for `twoNoteDoc`. -/
def evB : NoteEvent :=
  { midi := 60, start := 1 / 4, duration := 1 / 4, hand := "R", finger := none }

/-- A score with no parts, measures or notes. -/
def emptyDoc : Elem := elemNode "score-partwise" [] none []

/-- A rest element that carries a duration. -/
def restNoteElem : Elem :=
  elemNode "note" [] none [elemNode "rest" [] none [], mkTextElem "duration" "4"]

/-- A document with padded title and composer texts. -/
def titledDoc : Elem :=
  elemNode "score-partwise" [] none
    [elemNode "work" [] none [mkTextElem "work-title" "  Song  "],
     elemNode "identification" [] none
       [elemNode "creator" [("type", "composer")] (some " Bach ") []]]

/-- A half note: duration units `2`. -/
def halfNoteElem : Elem := mkNote "C" "4" "2"

/-- The event `_parse_note_element` emits for `halfNoteElem` at cursor 0 in
the right hand. -/
def halfNoteEvent : NoteEvent :=
  { midi := 60, start := 0, duration := 1 / 2, hand := "R", finger := none }

/-- The full conversion result for `twoNoteDoc` at timestamp `"T"`. -/
def adTwo : AnimationData :=
  { metadata := { title := "Untitled", composer := "Unknown" },
    notes := [evA, evB],
    duration := 1 / 2, tempo := 120, keySignature := "C", timeSignature := "4/4",
    generated_at := "T" }

/-! ### Helper lemmas -/

theorem midi_range {s : Option String} {o a m : Int}
    (h : _note_to_midi s o a = some m) : 21 ≤ m ∧ m ≤ 108 := by
  unfold _note_to_midi at h
  split at h
  · exact absurd h (by simp)
  · split at h
    · exact absurd h (by simp)
    · split at h
      · cases h
        assumption
      · exact absurd h (by simp)

theorem finger_range {ne : Elem} {f : Option Int} (h : fingerValue ne = some f) :
    f = none ∨ ∃ k, f = some k ∧ 1 ≤ k ∧ k ≤ 5 := by
  unfold fingerValue at h
  split at h
  · cases h
    exact Or.inl rfl
  · split at h
    · exact absurd h (by simp)
    · split at h
      · split at h
        · cases h
          exact Or.inl rfl
        · cases h
          rename_i hk
          push_neg at hk
          exact Or.inr ⟨_, rfl, hk.1, hk.2⟩
      · cases h
        exact Or.inl rfl

theorem parse_some_fields {ne : Elem} {t : ℚ} {hd : String} {nd : NoteEvent}
    (hp : _parse_note_element ne t hd = some nd) :
    nd.start = t ∧ nd.hand = hd ∧ (21 ≤ nd.midi ∧ nd.midi ≤ 108) ∧
    (nd.finger = none ∨ ∃ k, nd.finger = some k ∧ 1 ≤ k ∧ k ≤ 5) := by
  unfold _parse_note_element at hp
  split at hp
  · exact absurd hp (by simp)
  · split at hp
    · exact absurd hp (by simp)
    · split at hp
      · exact absurd hp (by simp)
      · split at hp
        · exact absurd hp (by simp)
        · split at hp
          · exact absurd hp (by simp)
          · split at hp
            · exact absurd hp (by simp)
            · split at hp
              · exact absurd hp (by simp)
              · split at hp
                · exact absurd hp (by simp)
                · split at hp
                  · exact absurd hp (by simp)
                  · cases hp
                    exact ⟨rfl, rfl, midi_range (by assumption),
                           finger_range (by assumption)⟩

theorem parse_rest {ne : Elem} (h : (findChild "rest" ne).isSome) :
    ∀ t hd, _parse_note_element ne t hd = none := by
  intro t hd
  unfold _parse_note_element
  simp [h]

theorem noteStep_rest {ne : Elem} (h : (findChild "rest" ne).isSome) :
    ∀ hd st, noteStep hd st ne = st := by
  intro hd st
  unfold noteStep
  rw [parse_rest h]

theorem noteStep_cases (hd : String) (st : List NoteEvent × ℚ) (ne : Elem) :
    noteStep hd st ne = st ∨
    ∃ nd, _parse_note_element ne st.2 hd = some nd ∧
      noteStep hd st ne = (st.1 ++ [nd], nd.start + nd.duration) := by
  unfold noteStep
  cases hcase : _parse_note_element ne st.2 hd with
  | none => exact Or.inl rfl
  | some nd => exact Or.inr ⟨nd, rfl, rfl⟩

theorem cursorOK_noteStep {hd : String} {st : List NoteEvent × ℚ} (h : cursorOK st)
    (ne : Elem) : cursorOK (noteStep hd st ne) := by
  rcases noteStep_cases hd st ne with heq | ⟨nd, hp, heq⟩
  · rw [heq]
    exact h
  · rw [heq]
    obtain ⟨hchain, hhead, hlast⟩ := h
    have hstart : nd.start = st.2 := (parse_some_fields hp).1
    refine ⟨?_, ?_, ?_⟩
    · rw [List.chain'_append]
      refine ⟨hchain, List.chain'_singleton nd, ?_⟩
      intro x hx y hy
      simp only [List.head?_cons, Option.mem_def, Option.some.injEq] at hy
      subst hy
      rw [Option.mem_def] at hx
      rw [hx] at hlast
      show nd.start = x.start + x.duration
      rw [hstart, hlast]
    · intro n hn
      cases hst : st.1 with
      | nil =>
        rw [hst] at hn hlast
        simp only [List.nil_append, List.head?_cons, Option.some.injEq] at hn
        subst hn
        simp only [List.getLast?_nil] at hlast
        rw [hstart, hlast]
      | cons a l =>
        rw [hst, List.cons_append, List.head?_cons] at hn
        injection hn with hn
        subst hn
        exact hhead a (by rw [hst, List.head?_cons])
    · rw [List.getLast?_concat]

theorem cursorOK_notes_foldl (hd : String) (l : List Elem) :
    ∀ st, cursorOK st → cursorOK (l.foldl (noteStep hd) st) := by
  induction l with
  | nil => exact fun st h => h
  | cons e es ih => exact fun st h => ih _ (cursorOK_noteStep h e)

theorem cursorOK_measures_foldl (hd : String) (l : List Elem) :
    ∀ st, cursorOK st → cursorOK (l.foldl (measureStep hd) st) := by
  induction l with
  | nil => exact fun st h => h
  | cons m ms ih =>
    intro st h
    exact ih _ (cursorOK_notes_foldl hd _ st h)

theorem processPart_chain (part : Elem) (hd : String) :
    List.Chain' chainRel (processPart part hd) ∧
    ∀ n, (processPart part hd).head? = some n → n.start = 0 := by
  have h0 : cursorOK ([], 0) := ⟨List.chain'_nil, fun n hn => by simp at hn, rfl⟩
  have h := cursorOK_measures_foldl hd (findAllChildren "measure" part) ([], 0) h0
  exact ⟨h.1, h.2.1⟩

theorem mem_notes_foldl (hd : String) (l : List Elem) :
    ∀ st n, n ∈ (l.foldl (noteStep hd) st).1 →
      n ∈ st.1 ∨ ∃ ne t, _parse_note_element ne t hd = some n := by
  induction l with
  | nil => exact fun st n h => Or.inl h
  | cons e es ih =>
    intro st n h
    rcases ih _ n h with h' | h'
    · rcases noteStep_cases hd st e with heq | ⟨nd, hp, heq⟩
      · rw [heq] at h'
        exact Or.inl h'
      · rw [heq] at h'
        rcases List.mem_append.mp h' with h'' | h''
        · exact Or.inl h''
        · rw [List.mem_singleton] at h''
          subst h''
          exact Or.inr ⟨e, st.2, hp⟩
    · exact Or.inr h'

theorem mem_measures_foldl (hd : String) (l : List Elem) :
    ∀ st n, n ∈ (l.foldl (measureStep hd) st).1 →
      n ∈ st.1 ∨ ∃ ne t, _parse_note_element ne t hd = some n := by
  induction l with
  | nil => exact fun st n h => Or.inl h
  | cons m ms ih =>
    intro st n h
    rcases ih _ n h with h' | h'
    · exact mem_notes_foldl hd _ st n h'
    · exact Or.inr h'

theorem processPart_mem {part : Elem} {hd : String} {n : NoteEvent}
    (h : n ∈ processPart part hd) :
    ∃ ne t, _parse_note_element ne t hd = some n := by
  rcases mem_measures_foldl hd (findAllChildren "measure" part) ([], 0) n h with h' | h'
  · simp at h'
  · exact h'

theorem processPart_hand {part : Elem} {hd : String} {n : NoteEvent}
    (h : n ∈ processPart part hd) : n.hand = hd := by
  obtain ⟨ne, t, hp⟩ := processPart_mem h
  exact (parse_some_fields hp).2.1

theorem insertByStart_mem (n : NoteEvent) (l : List NoteEvent) (x : NoteEvent) :
    x ∈ insertByStart n l ↔ x = n ∨ x ∈ l := by
  induction l with
  | nil => simp [insertByStart]
  | cons m ms ih =>
    unfold insertByStart
    split
    · rw [List.mem_cons, ih, List.mem_cons]
      tauto
    · simp only [List.mem_cons]

theorem mem_foldl_insert (l : List NoteEvent) :
    ∀ acc x, x ∈ l.foldl (fun a n => insertByStart n a) acc ↔ x ∈ acc ∨ x ∈ l := by
  induction l with
  | nil => simp
  | cons n ns ih =>
    intro acc x
    rw [List.foldl_cons, ih, insertByStart_mem]
    simp only [List.mem_cons]
    tauto

theorem mem_sortByStart {l : List NoteEvent} {x : NoteEvent} :
    x ∈ sortByStart l ↔ x ∈ l := by
  unfold sortByStart
  rw [mem_foldl_insert]
  simp

theorem foldl_max_le (l : List ℚ) :
    ∀ a : ℚ, a ≤ l.foldl max a ∧ ∀ x ∈ l, x ≤ l.foldl max a := by
  induction l with
  | nil => intro a; exact ⟨le_refl a, by simp⟩
  | cons b bs ih =>
    intro a
    rw [List.foldl_cons]
    obtain ⟨h1, h2⟩ := ih (max a b)
    refine ⟨le_trans (le_max_left a b) h1, ?_⟩
    intro x hx
    rcases List.mem_cons.mp hx with rfl | hx
    · exact le_trans (le_max_right a x) h1
    · exact h2 x hx

theorem foldl_max_mem (l : List ℚ) :
    ∀ a : ℚ, l.foldl max a = a ∨ l.foldl max a ∈ l := by
  induction l with
  | nil => intro a; exact Or.inl rfl
  | cons b bs ih =>
    intro a
    rw [List.foldl_cons]
    rcases ih (max a b) with h | h
    · rcases max_choice a b with hc | hc
      · exact Or.inl (by rw [h, hc])
      · exact Or.inr (by rw [h, hc]; exact List.mem_cons_self b bs)
    · exact Or.inr (List.mem_cons_of_mem b h)

theorem max?_spec {l : List ℚ} {m : ℚ} (h : l.max? = some m) :
    m ∈ l ∧ ∀ x ∈ l, x ≤ m := by
  cases l with
  | nil => simp [List.max?] at h
  | cons a as =>
    have h' : as.foldl max a = m := by
      simpa [List.max?] using h
    subst h'
    constructor
    · rcases foldl_max_mem as a with h'' | h''
      · rw [h'']
        exact List.mem_cons_self a as
      · exact List.mem_cons_of_mem a h''
    · intro x hx
      rcases List.mem_cons.mp hx with rfl | hx
      · exact (foldl_max_le as x).1
      · exact (foldl_max_le as a).2 x hx

theorem max?_isSome {l : List ℚ} (h : l ≠ []) : ∃ m, l.max? = some m := by
  cases l with
  | nil => exact absurd rfl h
  | cons a as => exact ⟨as.foldl max a, rfl⟩

theorem convert_ok {root : Elem} {tH cH : Option String} {now : String}
    {ad : AnimationData} (h : convert root tH cH now = Except.ok ad) :
    ∃ tempo ks, _extract_tempo root = Except.ok tempo ∧
      _extract_key_signature root = Except.ok ks ∧
      ad = { metadata := _extract_metadata root tH cH
             notes := _extract_notes root
             duration := _calculate_duration (_extract_notes root)
             tempo := tempo
             keySignature := ks
             timeSignature := _extract_time_signature root
             generated_at := now } := by
  unfold convert at h
  split at h
  · exact absurd h (by simp)
  · rename_i tempo htempo
    split at h
    · exact absurd h (by simp)
    · rename_i ks hks
      injection h with h
      exact ⟨tempo, ks, htempo, hks, h.symm⟩

theorem parse_durationValue {ne : Elem} {t : ℚ} {hd : String} {nd : NoteEvent}
    (hp : _parse_note_element ne t hd = some nd) :
    durationValue ne = some nd.duration := by
  unfold _parse_note_element at hp
  split at hp
  · exact absurd hp (by simp)
  · split at hp
    · exact absurd hp (by simp)
    · split at hp
      · exact absurd hp (by simp)
      · split at hp
        · exact absurd hp (by simp)
        · split at hp
          · exact absurd hp (by simp)
          · split at hp
            · exact absurd hp (by simp)
            · split at hp
              · exact absurd hp (by simp)
              · split at hp
                · exact absurd hp (by simp)
                · split at hp
                  · exact absurd hp (by simp)
                  · cases hp
                    assumption

theorem parse_half : _parse_note_element halfNoteElem 0 "R" = some halfNoteEvent := by
  show some _ = _
  norm_num [halfNoteEvent,
    show digitsVal (stripUnd ['4']) = 4 from by decide,
    show digitsVal (stripUnd (List.takeWhile (fun c => !decide (c = '.'))
      (List.takeWhile (fun c => !decide (c = 'e') && !decide (c = 'E')) ['2']))) = 2
      from by decide]

theorem extract_two : _extract_notes twoNoteDoc = [evA, evB] := by
  show sortByStart
    [{ midi := 60, start := 0, duration := 1 / 4, hand := "R", finger := none },
     { midi := 60, start := 0 + 1 / 4, duration := 1 / 4, hand := "R", finger := none }] = _
  norm_num [sortByStart, insertByStart, evA, evB]

theorem processPart_two : processPart partElem (handFor 0) =
    [{ midi := 60, start := 0, duration := 1 / 4, hand := "R", finger := none },
     { midi := 60, start := 0 + 1 / 4, duration := 1 / 4, hand := "R", finger := none }] := by
  show ([{ midi := 60, start := 0, duration := 1 / 4, hand := "R", finger := none },
         { midi := 60, start := 0 + 1 / 4, duration := 1 / 4, hand := "R", finger := none }] :
        List NoteEvent) = _
  norm_num

theorem convert_two : convert twoNoteDoc none none "T" = Except.ok adTwo := by
  show Except.ok _ = _
  simp only [Except.ok.injEq]
  rw [extract_two]
  unfold adTwo
  norm_num [AnimationData.mk.injEq, _calculate_duration, List.max?, evA, evB,
    max_def,
    show _extract_metadata twoNoteDoc none none =
      { title := "Untitled", composer := "Unknown" } from rfl,
    show _extract_time_signature twoNoteDoc = "4/4" from rfl]

/-! ### Claim theorems -/

/-- C1: for a pitched note element with a step in the `base_notes` table, an
integer octave and an integer alteration, the converter resolves the pitch to
`base(step) + (octave - 4) * 12 + alteration` with base C=60, D=62, E=64,
F=65, G=67, A=69, B=71; a result outside [21,108] makes `_note_to_midi`
return `None`, and the note element is then dropped (no event, no
exception). -/
theorem C1_pitch_resolution (s : String) (b o a : Int) (hb : baseNote s = some b) :
    (baseNote "C" = some 60 ∧ baseNote "D" = some 62 ∧ baseNote "E" = some 64 ∧
     baseNote "F" = some 65 ∧ baseNote "G" = some 67 ∧ baseNote "A" = some 69 ∧
     baseNote "B" = some 71) ∧
    _note_to_midi (some s) o a =
      (if 21 ≤ b + (o - 4) * 12 + a ∧ b + (o - 4) * 12 + a ≤ 108
       then some (b + (o - 4) * 12 + a) else none) ∧
    (∀ ne t hd, pitchFields ne s o a → _note_to_midi (some s) o a = none →
      _parse_note_element ne t hd = none) := by
  refine ⟨⟨rfl, rfl, rfl, rfl, rfl, rfl, rfl⟩, ?_, ?_⟩
  · simp only [_note_to_midi, hb]
  · intro ne t hd hpf hnone
    obtain ⟨hrest, p, hp, ⟨se, hse, hsetext⟩, ⟨oe, hoe, hoparse⟩, halter⟩ := hpf
    unfold _parse_note_element
    simp only [hrest, Option.isSome_none, Bool.false_eq_true, if_false, hp, hse, hoe,
      hoparse, halter, hsetext, hnone]

/-- Witness for C1 at the concrete pitch C, octave −1 (key number 0, below
the piano range): the pitch resolves to `None` and the note element is
dropped without an exception. -/
theorem C1_pitch_resolution_witness :
    _note_to_midi (some "C") (-1) 0 = none ∧
    _parse_note_element (mkNote "C" "-1" "1") 0 "R" = none := by
  have h := C1_pitch_resolution "C" 60 (-1) 0 rfl
  refine ⟨?_, ?_⟩
  · rw [h.2.1]
    norm_num
  · refine h.2.2 (mkNote "C" "-1" "1") 0 "R"
      ⟨rfl, mkPitch "C" "-1", rfl, ⟨mkTextElem "step" "C", rfl, rfl⟩,
       ⟨mkTextElem "octave" "-1", rfl, rfl⟩, rfl⟩ ?_
    rw [h.2.1]
    norm_num

/-- C4: a rest element produces no event and leaves the timing cursor
untouched (even when it carries a duration — the source computes that
duration into a dead local); the cursor moves only when a pitched note is
emitted, and then exactly to that note's `start + duration`. -/
theorem C4_rest_skipped (note_elem : Elem)
    (hrest : (findChild "rest" note_elem).isSome = true) :
    (∀ t hd, _parse_note_element note_elem t hd = none) ∧
    (∀ hd st, noteStep hd st note_elem = st) ∧
    (∀ hd (st : List NoteEvent × ℚ) ne, noteStep hd st ne = st ∨
      ∃ nd, _parse_note_element ne st.2 hd = some nd ∧
        noteStep hd st ne = (st.1 ++ [nd], nd.start + nd.duration)) :=
  ⟨parse_rest hrest, fun hd st => noteStep_rest hrest hd st,
   fun hd st ne => noteStep_cases hd st ne⟩

/-- Witness for C4 on a rest that carries duration 4: no event, cursor and
event list unchanged. -/
theorem C4_rest_skipped_witness :
    _parse_note_element restNoteElem 0 "L" = none ∧
    noteStep "L" ([], 0) restNoteElem = ([], 0) := by
  have h := C4_rest_skipped restNoteElem rfl
  exact ⟨h.1 0 "L", h.2.1 "L" ([], 0)⟩

theorem calculate_duration_spec (notes : List NoteEvent) :
    (notes = [] → _calculate_duration notes = 0) ∧
    (∀ n ∈ notes, n.start + n.duration ≤ _calculate_duration notes) ∧
    (notes ≠ [] → ∃ n ∈ notes, _calculate_duration notes = n.start + n.duration) := by
  unfold _calculate_duration
  cases hm : (notes.map (fun n => n.start + n.duration)).max? with
  | none =>
    have hnil : notes = [] := by
      cases notes with
      | nil => rfl
      | cons a l => simp [List.max?] at hm
    subst hnil
    exact ⟨fun _ => rfl, by simp, fun hne => absurd rfl hne⟩
  | some m =>
    obtain ⟨hmem, hub⟩ := max?_spec hm
    obtain ⟨n, hn, hev⟩ := List.mem_map.mp hmem
    refine ⟨?_, ?_, ?_⟩
    · intro h0
      subst h0
      simp [List.max?] at hm
    · intro x hx
      exact hub _ (List.mem_map_of_mem _ hx)
    · intro _
      exact ⟨n, hn, hev.symm⟩

/-- C5: an emitted note's duration is its raw duration units divided by 4,
defaulting to 0.5 s when no duration field is present; within a part the
cursor starts at 0 and each emitted note starts where the previous one
ended (consecutive events chain by `start + duration`, the first starts at
0); on a single part with two unit-duration notes this gives events at
0.0 and 0.25, each lasting 0.25 s. -/
theorem C5_durations_and_timing :
    (∀ ne t hd nd, _parse_note_element ne t hd = some nd →
      (findChild "duration" ne = none → nd.duration = 1 / 2) ∧
      (∀ d q, findChild "duration" ne = some d → d.text.bind pyFloat = some q →
        nd.duration = q / 4)) ∧
    (∀ part hd, List.Chain' chainRel (processPart part hd) ∧
      ∀ n, (processPart part hd).head? = some n → n.start = 0) ∧
    _extract_notes twoNoteDoc = [evA, evB] ∧
    evA = { midi := 60, start := 0, duration := 1 / 4, hand := "R", finger := none } ∧
    evB = { midi := 60, start := 1 / 4, duration := 1 / 4, hand := "R", finger := none } := by
  refine ⟨?_, fun part hd => processPart_chain part hd, extract_two, rfl, rfl⟩
  intro ne t hd nd hp
  have hdv := parse_durationValue hp
  constructor
  · intro hnone
    simp only [durationValue, hnone, Option.some.injEq] at hdv
    exact hdv.symm
  · intro d q hd' hq
    simp only [durationValue, hd', hq, Option.map_some', Option.some.injEq] at hdv
    exact hdv.symm

/-- Witness for C5: a half note (raw duration 2) at cursor 0 is emitted
with duration 2/4 seconds. -/
theorem C5_durations_and_timing_witness : halfNoteEvent.duration = 2 / 4 := by
  have h := C5_durations_and_timing
  exact (h.1 halfNoteElem 0 "R" halfNoteEvent parse_half).2
    (mkTextElem "duration" "2") 2 rfl rfl

/-- C6: the output title is the document's (stripped) work title whenever
one is present with non-empty text, else the non-empty caller title hint,
else "Untitled"; the composer is resolved symmetrically from the
composer-role creator, the composer hint and "Unknown". -/
theorem C6_metadata_resolution (root : Elem) (tH cH : Option String) :
    (∀ s, declaredWorkTitle root = some s → s ≠ "" →
      (_extract_metadata root tH cH).title = pyStrip s) ∧
    ((declaredWorkTitle root = none ∨ declaredWorkTitle root = some "") →
      (_extract_metadata root tH cH).title = hintOr tH "Untitled") ∧
    (∀ s, declaredComposer root = some s → s ≠ "" →
      (_extract_metadata root tH cH).composer = pyStrip s) ∧
    ((declaredComposer root = none ∨ declaredComposer root = some "") →
      (_extract_metadata root tH cH).composer = hintOr cH "Unknown") ∧
    (∀ s, tH = some s → s ≠ "" → hintOr tH "Untitled" = s) ∧
    (tH = none → hintOr tH "Untitled" = "Untitled") ∧
    (∀ s, cH = some s → s ≠ "" → hintOr cH "Unknown" = s) ∧
    (cH = none → hintOr cH "Unknown" = "Unknown") := by
  refine ⟨?_, ?_, ?_, ?_, ?_, ?_, ?_, ?_⟩
  · intro s hs hne
    simp [_extract_metadata, hs, hne]
  · rintro (h | h) <;> simp [_extract_metadata, h]
  · intro s hs hne
    simp [_extract_metadata, hs, hne]
  · rintro (h | h) <;> simp [_extract_metadata, h]
  · intro s hs hne
    simp [hintOr, hs, hne]
  · intro hs
    simp [hintOr, hs]
  · intro s hs hne
    simp [hintOr, hs, hne]
  · intro hs
    simp [hintOr, hs]

/-- Witness for C6: a padded declared title is stripped, and a document
with neither field combined with no hints yields "Untitled"/"Unknown". -/
theorem C6_metadata_resolution_witness :
    (_extract_metadata titledDoc none none).title = pyStrip "  Song  " ∧
    (_extract_metadata emptyDoc none none).title = "Untitled" ∧
    (_extract_metadata emptyDoc none none).composer = "Unknown" := by
  have h1 := C6_metadata_resolution titledDoc none none
  have h2 := C6_metadata_resolution emptyDoc none none
  refine ⟨h1.1 "  Song  " rfl (by decide), ?_, ?_⟩
  · rw [h2.2.1 (Or.inl rfl)]
    exact h2.2.2.2.2.2.1 rfl
  · rw [h2.2.2.2.1 (Or.inl rfl)]
    exact h2.2.2.2.2.2.2.2 rfl

/-- C7: the output duration field is the maximum of `start + duration`
over the emitted notes (an attained upper bound), and a document with no
emitted notes — in particular the empty score — yields duration 0.0, an
empty notes list, tempo 120, key "C" and time "4/4". -/
theorem C7_output_duration (root : Elem) (tH cH : Option String) (now : String)
    (ad : AnimationData) (h : convert root tH cH now = Except.ok ad) :
    (ad.notes = [] → ad.duration = 0) ∧
    (∀ n ∈ ad.notes, n.start + n.duration ≤ ad.duration) ∧
    (ad.notes ≠ [] → ∃ n ∈ ad.notes, ad.duration = n.start + n.duration) ∧
    convert emptyDoc none none now = Except.ok
      { metadata := { title := "Untitled", composer := "Unknown" }, notes := [],
        duration := 0, tempo := 120, keySignature := "C", timeSignature := "4/4",
        generated_at := now } := by
  obtain ⟨tempo, ks, htempo, hks, rfl⟩ := convert_ok h
  have hc := calculate_duration_spec (_extract_notes root)
  exact ⟨hc.1, hc.2.1, hc.2.2, rfl⟩

/-- Witness for C7 on the two-note document: the second event's end time
is a bound attained by the output duration 1/2. -/
theorem C7_output_duration_witness :
    evB.start + evB.duration ≤ adTwo.duration ∧ adTwo.duration = 1 / 2 := by
  have h := C7_output_duration twoNoteDoc none none "T" adTwo convert_two
  exact ⟨h.2.1 evB (by simp [adTwo]), rfl⟩

/-- C9 counterexample: the same document and hints converted at two
different wall-clock instants (the `generated_at` timestamp, an ambient
input the claim does not account for) yield different AnimationData — the
output is not a function of the document and hints alone, because the
source stamps `datetime.utcnow().isoformat()` into the result. -/
theorem C9_counterexample :
    convert emptyDoc none none "2025-01-01T00:00:00" ≠
      convert emptyDoc none none "2025-01-02T00:00:00" := by
  intro h
  rw [show convert emptyDoc none none "2025-01-01T00:00:00" = Except.ok
        { metadata := { title := "Untitled", composer := "Unknown" }, notes := [],
          duration := 0, tempo := 120, keySignature := "C", timeSignature := "4/4",
          generated_at := "2025-01-01T00:00:00" } from rfl,
      show convert emptyDoc none none "2025-01-02T00:00:00" = Except.ok
        { metadata := { title := "Untitled", composer := "Unknown" }, notes := [],
          duration := 0, tempo := 120, keySignature := "C", timeSignature := "4/4",
          generated_at := "2025-01-02T00:00:00" } from rfl] at h
  simp at h

/-- C9 amended: `convert` is a deterministic function of the document, the
two hints and the ambient clock value; every output field except
`generated_at` depends only on the document and hints — converting the
same inputs at two different times gives results equal after erasing the
timestamp. -/
theorem C9_determinism_mod_timestamp (root : Elem) (tH cH : Option String)
    (n1 n2 : String) :
    (convert root tH cH n1).map eraseTimestamp =
      (convert root tH cH n2).map eraseTimestamp := by
  unfold convert
  cases ht : _extract_tempo root with
  | error e => simp
  | ok t =>
    cases hk : _extract_key_signature root with
    | error e => simp
    | ok ks => simp [Except.map, eraseTimestamp]

/-- C10: every note in a conversion result has a midi number inside the
88-key range [21,108], a hand that is "R" or "L" — "R" exactly for events
produced from the part at index 0, "L" for every other part — and a
finger that is either absent or an integer in [1,5]. -/
theorem C10_event_invariants (root : Elem) (tH cH : Option String) (now : String)
    (ad : AnimationData) (h : convert root tH cH now = Except.ok ad) :
    (∀ n ∈ ad.notes,
      (21 ≤ n.midi ∧ n.midi ≤ 108) ∧
      (n.hand = "R" ∨ n.hand = "L") ∧
      (n.finger = none ∨ ∃ k, n.finger = some k ∧ 1 ≤ k ∧ k ≤ 5)) ∧
    (∀ i p, (findAllDesc "part" root)[i]? = some p →
      ∀ n ∈ processPart p (handFor i), n.hand = (if i = 0 then "R" else "L")) := by
  obtain ⟨tempo, ks, htempo, hks, rfl⟩ := convert_ok h
  constructor
  · intro n hn
    have hn2 : n ∈ collectNotes root := mem_sortByStart.mp hn
    unfold collectNotes at hn2
    obtain ⟨l, hl, hnl⟩ := List.mem_flatten.mp hn2
    obtain ⟨ip, hip, rfl⟩ := List.mem_map.mp hl
    obtain ⟨ne', t, hp⟩ := processPart_mem hnl
    have hf := parse_some_fields hp
    refine ⟨hf.2.2.1, ?_, hf.2.2.2⟩
    rw [hf.2.1]
    unfold handFor
    by_cases h0 : ip.1 = 0
    · rw [if_pos h0]
      exact Or.inl rfl
    · rw [if_neg h0]
      exact Or.inr rfl
  · intro i p hip n hn
    exact processPart_hand hn

/-- Witness for C10 on the two-note document's first event. -/
theorem C10_event_invariants_witness :
    (21 ≤ evA.midi ∧ evA.midi ≤ 108) ∧ evA.hand = "R" := by
  have h := C10_event_invariants twoNoteDoc none none "T" adTwo convert_two
  have hmem : evA ∈ adTwo.notes := by simp [adTwo]
  have hmem2 : evA ∈ processPart partElem (handFor 0) := by
    rw [processPart_two]
    exact List.mem_cons_self _ _
  refine ⟨(h.1 evA hmem).1, ?_⟩
  simpa using h.2 0 partElem rfl evA hmem2
